import Mathlib

/-!
Formal model of the OCR_compare frame-to-text aggregation pipeline,
shallowly embedding `src/main.py` and `src/process.py`.

Conventions:
* OCR confidences (Python floats) are modelled as rationals `ℚ`.
* Filesystem contents are modelled explicitly: the result file is an
  `Option String` (`none` = absent), frame directories are lists of
  file names.
* `sys.exit(1)` / uncaught exceptions are modelled by the `Except`
  monad; a run's outcome is `(success?, final result-file state)`.
-/

namespace OCRCompare

/-! ### OCR backend return values

PaddleOCR (`main.py:116-132`, `process.py:94-105`): `ocr.ocr(path)` returns
either `None` or a list whose element `0` is a list of detection lines;
each line is `None` or a sequence whose element `1` is the
`(text, confidence)` pair (element `0` is the bounding box, never read by
this code, so cells are modelled uniformly as `String × ℚ` pairs; only the
line's length and its element `1` matter).

EasyOCR (`main.py:175-189`, `process.py:132-141`): `reader.readtext(path)`
returns a list of detections, `detection[1]` the text and `detection[2]`
the confidence. -/

abbrev PaddleCell := String × ℚ

abbrev PaddleLine := List PaddleCell

abbrev PaddleResult := Option (List (List (Option PaddleLine)))

structure EasyDetection where
  box : List (ℚ × ℚ)
  text : String
  confidence : ℚ

/-- Confidence gate used by both backends (`if confidence > 0.8`): the
rational `8/10`. -/
def confidenceThreshold : ℚ := mkRat 8 10

instance {ε α : Type} [DecidableEq ε] [DecidableEq α] : DecidableEq (Except ε α) := fun x y =>
  match x, y with
  | .ok a, .ok b =>
    if h : a = b then .isTrue (by rw [h]) else .isFalse (by simp [h])
  | .error e, .error f =>
    if h : e = f then .isTrue (by rw [h]) else .isFalse (by simp [h])
  | .ok _, .error _ => .isFalse (by simp)
  | .error _, .ok _ => .isFalse (by simp)

/-- One guarded Paddle detection line (`main.py:121-123`): skipped when
`None` or shorter than 2 elements, else yields the `(text, confidence)`
pair at index 1. -/
def paddleLineDetections (line : Option PaddleLine) : List (String × ℚ) :=
  match line with
  | none => []
  | some cells =>
    if h : cells.length ≥ 2 then [cells.get ⟨1, by omega⟩]
    else []

/-- Detections of one frame on the Paddle path (`main.py:119-123`):
`None` results are skipped; a non-`None` result is indexed at `[0]`,
which raises (modelled as `Except.error`) when the outer list is empty. -/
def paddleFrameDetections (result : PaddleResult) : Except Unit (List (String × ℚ)) :=
  match result with
  | none => .ok []
  | some pages =>
    match pages with
    | [] => .error ()
    | page :: _ => .ok (page.foldr (fun l acc => paddleLineDetections l ++ acc) [])

/-- Words one frame contributes on the Paddle path: detections whose
confidence strictly exceeds the threshold (`main.py:131`,
`process.py:104`). -/
def paddleFrameWords (result : PaddleResult) : Except Unit (List String) :=
  (paddleFrameDetections result).map
    (fun ds => (ds.filter (fun d => decide (confidenceThreshold < d.2))).map (fun d => d.1))

/-- Words one frame contributes on the EasyOCR path (`main.py:178-189`,
`process.py:133-141`). -/
def easyFrameWords (ds : List EasyDetection) : List String :=
  (ds.filter (fun d => decide (confidenceThreshold < d.confidence))).map (fun d => d.text)

/-! ### Frame file listing (`get_frame_files`, `main.py:74-91` /
`process.py:65-81`) -/

/-- Decimal value of a digit string, as computed by Python `int` on the
numeric frame stems. -/
def parseNat (s : String) : ℕ :=
  s.toList.foldl (fun a c => 10 * a + (c.toNat - 48)) 0

/-- Stem of a `*.jpg` frame file name (`Path.stem`): the name without its
`.jpg` suffix, which the glob pattern guarantees. -/
def stem (s : String) : String := s.dropRight 4

/-- Numeric sort key (`key=lambda x: int(x.stem)`). -/
def frameKey (s : String) : ℕ := parseNat (stem s)

/-- Comparison used to sort frame files. -/
def frameLe (a b : String) : Prop := frameKey a ≤ frameKey b

instance : DecidableRel frameLe := fun _ _ => Nat.decLe _ _

instance : IsTotal String frameLe := ⟨fun _ _ => Nat.le_total _ _⟩

instance : IsTrans String frameLe := ⟨fun _ _ _ => Nat.le_trans⟩

/-- Sorted frame list: Python's stable `sorted` by numeric key; an empty
list is an error (`sys.exit(1)`, `main.py:87-89` / `process.py:77-79`). -/
def getFrameFiles (names : List String) : Except Unit (List String) :=
  if (List.insertionSort frameLe names).isEmpty then .error ()
  else .ok (List.insertionSort frameLe names)

/-! ### Result serialization (`sorted(unique_words)` write loop,
`main.py:134-137` / `process.py:107-109`, `143-145`) -/

/-- Strict codepoint order on characters (Python compares strings by
codepoints). -/
def charLt (c d : Char) : Prop := c.toNat < d.toNat

instance : DecidableRel charLt := fun _ _ => Nat.decLt _ _

instance : IsStrictTotalOrder Char charLt where
  trichotomous a b := by
    rcases Nat.lt_trichotomy a.toNat b.toNat with h | h | h
    · exact Or.inl h
    · exact Or.inr (Or.inl (Char.ext (UInt32.ext h)))
    · exact Or.inr (Or.inr h)
  irrefl a := Nat.lt_irrefl _
  trans a b c := Nat.lt_trans

/-- Strict codepoint-lexicographic order on strings: Python's `<` on
`str`. -/
def strLt (a b : String) : Prop := List.Lex charLt a.toList b.toList

/-- Python's `≤` on `str`: codepoint-lexicographic. -/
def strLe (a b : String) : Prop := a = b ∨ strLt a b

instance : DecidableRel strLt := fun a b =>
  inferInstanceAs (Decidable (List.Lex charLt a.toList b.toList))

instance : DecidableRel strLe := fun a b =>
  inferInstanceAs (Decidable (a = b ∨ strLt a b))

instance : IsTotal String strLe :=
  ⟨fun a b => by
    rcases trichotomous_of (List.Lex charLt) a.toList b.toList with h | h | h
    · exact Or.inl (Or.inr h)
    · exact Or.inl (Or.inl (String.ext h))
    · exact Or.inr (Or.inr h)⟩

instance : IsTrans String strLe :=
  ⟨fun a b c hab hbc => by
    rcases hab with rfl | hab
    · exact hbc
    · rcases hbc with rfl | hbc
      · exact Or.inr hab
      · exact Or.inr (trans_of (List.Lex charLt) hab hbc)⟩

/-- The sorted list of distinct admitted words: Python's
`sorted(unique_words)` for the set of admitted strings. -/
def sortedUnique (ws : List String) : List String :=
  List.insertionSort strLe ws.dedup

/-- Content of the written result file: each distinct admitted word once,
newline-terminated, in sorted order. -/
def resultFileContent (ws : List String) : String :=
  String.join ((sortedUnique ws).map (fun w => w ++ "\n"))

/-! ### Aggregation loops -/

/-- Paddle frame loop (`main.py:110-132` / `process.py:90-105`): the words
of every frame in order; a backend exception or an unguarded access
escapes the loop. -/
def collectWordsPaddle (backend : String → Except Unit PaddleResult) :
    List String → Except Unit (List String)
  | [] => .ok []
  | f :: fs =>
    match backend f with
    | .error e => .error e
    | .ok r =>
      match paddleFrameWords r with
      | .error e => .error e
      | .ok ws =>
        match collectWordsPaddle backend fs with
        | .error e => .error e
        | .ok rest => .ok (ws ++ rest)

/-- EasyOCR frame loop (`main.py:169-189` / `process.py:128-141`). -/
def collectWordsEasy (backend : String → Except Unit (List EasyDetection)) :
    List String → Except Unit (List String)
  | [] => .ok []
  | f :: fs =>
    match backend f with
    | .error e => .error e
    | .ok r =>
      match collectWordsEasy backend fs with
      | .error e => .error e
      | .ok rest => .ok (easyFrameWords r ++ rest)

/-- Run of `main.py`'s `process_frames_paddle` (lines 93-147), modelling
the `result.txt` state: the file is truncated to empty at the start
(line 100), frames are listed and processed, and only on success is the
full sorted content written (lines 135-137). Any failure (empty frame
list, backend exception) leaves the just-truncated empty file and exits
with an error. The prior content of `result.txt` is the last argument;
it is destroyed unconditionally by the initial truncation. -/
def mainRunPaddle (backend : String → Except Unit PaddleResult)
    (frames : List String) (_prior : Option String) : Bool × Option String :=
  match getFrameFiles frames with
  | .error _ => (false, some "")
  | .ok fs =>
    match collectWordsPaddle backend fs with
    | .error _ => (false, some "")
    | .ok ws => (true, some (resultFileContent ws))

/-- Run of `process.py`'s `process_frames_paddle` (lines 83-118): no
initial truncation; the single write of the full content happens only on
success (lines 107-109), so every failure leaves the result file in its
prior state. -/
def procRunPaddle (backend : String → Except Unit PaddleResult)
    (frames : List String) (prior : Option String) : Bool × Option String :=
  match getFrameFiles frames with
  | .error _ => (false, prior)
  | .ok fs =>
    match collectWordsPaddle backend fs with
    | .error _ => (false, prior)
    | .ok ws => (true, some (resultFileContent ws))

/-- Run of `process.py`'s `process_frames_easyocr` (lines 120-154), same
shape as the Paddle run. -/
def procRunEasy (backend : String → Except Unit (List EasyDetection))
    (frames : List String) (prior : Option String) : Bool × Option String :=
  match getFrameFiles frames with
  | .error _ => (false, prior)
  | .ok fs =>
    match collectWordsEasy backend fs with
    | .error _ => (false, prior)
    | .ok ws => (true, some (resultFileContent ws))

/-! ### Frame extraction (`extract_frames`, `main.py:21-67` /
`process.py:25-63`) -/

/-- Python `int()` applied to a real quotient: truncation toward zero. -/
def pyInt (q : ℚ) : ℤ := if 0 ≤ q then ⌊q⌋ else ⌈q⌉

/-- `total_frames = int(duration / frame_gap)` (`main.py:37` /
`process.py:46`). -/
def totalFrames (duration frameGap : ℚ) : ℤ := pyInt (duration / frameGap)

/-- Little-endian decimal digits of `n`, with explicit fuel so that the
definition reduces; equals `Nat.digits 10 n` when `n ≤ fuel`. -/
def decDigitsAux : ℕ → ℕ → List ℕ
  | _, 0 => []
  | 0, _ + 1 => []
  | f + 1, n + 1 => (n + 1) % 10 :: decDigitsAux f ((n + 1) / 10)

/-- Big-endian decimal digit list of `n`, as printed by Python `str`
(`str(0) = "0"`). -/
def decRepr (n : ℕ) : List ℕ :=
  if n = 0 then [0] else (decDigitsAux n n).reverse

/-- `num_digits = len(str(total_frames))` (`main.py:40` /
`process.py:47`), for a nonnegative count. -/
def numDigits (n : ℕ) : ℕ := (decRepr n).length

/-- Value of a big-endian digit list (what `int` on the rendered name's
stem recovers). -/
def digitsVal (l : List ℕ) : ℕ := l.foldl (fun a x => 10 * a + x) 0

/-- Left-pad a digit list with zeros to width `d`. -/
def zeroPad (d : ℕ) (l : List ℕ) : List ℕ :=
  List.replicate (d - l.length) 0 ++ l

/-- Modelled from the spec: the external decoder is invoked with the
output pattern `%{num_digits}d.jpg` (`main.py:52` / `process.py:57`) and
— per the spec's Frame Extractor contract — renders frame index `i` under
that pattern as the decimal digits of `i` zero-padded to exactly
`num_digits` positions (the `.jpg` suffix, common to all names, is
dropped here: this is the stem whose digits the numeric sort parses). -/
def frameStem (d i : ℕ) : List ℕ := zeroPad d (decRepr i)

/-! ### Work-directory naming (`main.py:27-29`, `69-72` /
`process.py:34-38`) -/

/-- Frame directory used by `main.py`: the fixed relative path
`'frames'`, for every video (`main.py:28`). -/
def mainFramesDirName (_videoPath : String) : String := "frames"

/-- Result file used by `main.py`: the fixed relative path
`'result.txt'`, for every video (`main.py:71`, `100`, `135`). -/
def mainResultFileName (_videoPath : String) : String := "result.txt"

/-- Frame directory used by `process.py`: `output_dir / 'frames'` for the
caller-supplied output directory (`process.py:35`). -/
def procFramesDirName (outputDir : String) : String := outputDir ++ "/frames"

/-- Contents of the frame directory right after `main.py`'s preparation
(`main.py:28-29`): `mkdir(exist_ok=True)` creates the directory when
missing and otherwise keeps it, pre-existing contents included. -/
def mainPrepareFramesDir (existing : Option (List String)) : List String :=
  match existing with
  | some files => files
  | none => []

/-- Contents of the frame directory right after `process.py`'s
preparation (`process.py:36-38`): an existing directory is removed by
`shutil.rmtree` before `mkdir`, so the directory is always empty. -/
def procPrepareFramesDir (_existing : Option (List String)) : List String := []

/-! ## Helper lemmas -/

theorem collectWordsPaddle_error_of_mem {backend : String → Except Unit PaddleResult}
    {fs : List String} {f : String} (hf : f ∈ fs) (hb : backend f = .error ()) :
    collectWordsPaddle backend fs = .error () := by
  induction fs with
  | nil => cases hf
  | cons g gs ih =>
    rcases List.mem_cons.mp hf with rfl | hmem
    · simp only [collectWordsPaddle, hb]
    · simp only [collectWordsPaddle]
      cases hbg : backend g with
      | error e => cases e; rfl
      | ok r =>
        cases hw : paddleFrameWords r with
        | error e => cases e; simp [hw]
        | ok ws => simp [hw, ih hmem]

theorem collectWordsEasy_error_of_mem {backend : String → Except Unit (List EasyDetection)}
    {fs : List String} {f : String} (hf : f ∈ fs) (hb : backend f = .error ()) :
    collectWordsEasy backend fs = .error () := by
  induction fs with
  | nil => cases hf
  | cons g gs ih =>
    rcases List.mem_cons.mp hf with rfl | hmem
    · simp only [collectWordsEasy, hb]
    · simp only [collectWordsEasy]
      cases hbg : backend g with
      | error e => cases e; rfl
      | ok r => simp [ih hmem]

theorem getFrameFiles_ok {names fs : List String} (h : getFrameFiles names = .ok fs) :
    fs = List.insertionSort frameLe names := by
  unfold getFrameFiles at h
  split at h
  · cases h
  · exact (Except.ok.inj h).symm

theorem getFrameFiles_perm {names fs : List String} (h : getFrameFiles names = .ok fs) :
    fs.Perm names := by
  rw [getFrameFiles_ok h]
  exact List.perm_insertionSort frameLe names

theorem getFrameFiles_sorted {names fs : List String} (h : getFrameFiles names = .ok fs) :
    fs.Sorted frameLe := by
  rw [getFrameFiles_ok h]
  exact List.sorted_insertionSort frameLe names

theorem getFrameFiles_of_ne_nil {names : List String} (h : names ≠ []) :
    getFrameFiles names = .ok (List.insertionSort frameLe names) := by
  unfold getFrameFiles
  rw [if_neg]
  intro hempty
  have hnil : List.insertionSort frameLe names = [] := by
    simpa using hempty
  have hperm : names.Perm (List.insertionSort frameLe names) :=
    (List.perm_insertionSort frameLe names).symm
  rw [hnil] at hperm
  exact h hperm.eq_nil

theorem mem_sortedUnique {ws : List String} {s : String} :
    s ∈ sortedUnique ws ↔ s ∈ ws := by
  unfold sortedUnique
  rw [(List.perm_insertionSort strLe ws.dedup).mem_iff]
  exact List.mem_dedup

theorem sortedUnique_nodup (ws : List String) : (sortedUnique ws).Nodup :=
  (List.perm_insertionSort strLe ws.dedup).nodup_iff.mpr (List.nodup_dedup ws)

theorem sortedUnique_sorted (ws : List String) : (sortedUnique ws).Sorted strLe :=
  List.sorted_insertionSort strLe ws.dedup

theorem sortedUnique_sorted_strict (ws : List String) :
    (sortedUnique ws).Pairwise strLt := by
  have hs : (sortedUnique ws).Pairwise strLe := sortedUnique_sorted ws
  have hn : (sortedUnique ws).Pairwise (· ≠ ·) := sortedUnique_nodup ws
  exact hs.imp₂ (fun a b hab hne => hab.resolve_left hne) hn


theorem decDigitsAux_eq_digits : ∀ f n : ℕ, n ≤ f → decDigitsAux f n = Nat.digits 10 n := by
  intro f
  induction f with
  | zero =>
    intro n hn
    cases Nat.le_zero.mp hn
    simp [decDigitsAux]
  | succ f ih =>
    intro n hn
    match n with
    | 0 => simp [decDigitsAux]
    | m + 1 =>
      have hdiv : (m + 1) / 10 ≤ f := by
        have := Nat.div_lt_self (Nat.succ_pos m) (by norm_num : 1 < 10)
        omega
      rw [decDigitsAux, ih _ hdiv, Nat.digits_def' (by norm_num : 1 < 10) (Nat.succ_pos m)]

theorem decRepr_eq (n : ℕ) :
    decRepr n = if n = 0 then [0] else (Nat.digits 10 n).reverse := by
  unfold decRepr
  by_cases h : n = 0
  · simp [h]
  · simp [h, decDigitsAux_eq_digits n n le_rfl]

theorem numDigits_eq_log (n : ℕ) : numDigits n = Nat.log 10 n + 1 := by
  unfold numDigits
  rw [decRepr_eq]
  by_cases h : n = 0
  · simp [h]
  · simp [h, Nat.digits_len 10 n (by norm_num) h]

theorem numDigits_mono {i n : ℕ} (h : i ≤ n) : numDigits i ≤ numDigits n := by
  rw [numDigits_eq_log, numDigits_eq_log]
  exact Nat.succ_le_succ (Nat.log_mono_right h)

theorem decRepr_digits_lt (n : ℕ) : ∀ d ∈ decRepr n, d < 10 := by
  rw [decRepr_eq]
  by_cases h : n = 0
  · simp [h]
  · intro d hd
    simp only [h, if_false, List.mem_reverse] at hd
    exact Nat.digits_lt_base (by norm_num) hd

theorem digitsVal_acc (l : List ℕ) (a : ℕ) :
    l.foldl (fun acc x => 10 * acc + x) a = a * 10 ^ l.length + digitsVal l := by
  induction l generalizing a with
  | nil => simp [digitsVal]
  | cons x l ih =>
    simp only [List.foldl_cons, List.length_cons]
    rw [ih (10 * a + x)]
    have hx : digitsVal (x :: l) = x * 10 ^ l.length + digitsVal l := by
      unfold digitsVal
      simp only [List.foldl_cons]
      rw [show 10 * 0 + x = x by ring]
      exact ih x
    rw [hx]
    ring

theorem digitsVal_cons (x : ℕ) (l : List ℕ) :
    digitsVal (x :: l) = x * 10 ^ l.length + digitsVal l := by
  unfold digitsVal
  simp only [List.foldl_cons]
  rw [show 10 * 0 + x = x by ring]
  exact digitsVal_acc l x

theorem digitsVal_lt (l : List ℕ) (h : ∀ d ∈ l, d < 10) :
    digitsVal l < 10 ^ l.length := by
  induction l with
  | nil => simp [digitsVal]
  | cons x l ih =>
    rw [digitsVal_cons]
    have hx : x < 10 := h x (.head l)
    have hl : digitsVal l < 10 ^ l.length := ih fun d hd => h d (.tail x hd)
    calc x * 10 ^ l.length + digitsVal l
        < x * 10 ^ l.length + 10 ^ l.length := by omega
      _ = (x + 1) * 10 ^ l.length := by ring
      _ ≤ 10 * 10 ^ l.length := Nat.mul_le_mul_right _ (by omega)
      _ = 10 ^ (x :: l).length := by rw [List.length_cons]; ring

theorem digitsVal_reverse (L : List ℕ) : digitsVal L.reverse = Nat.ofDigits 10 L := by
  induction L with
  | nil => simp [digitsVal]
  | cons x L ih =>
    rw [List.reverse_cons]
    unfold digitsVal
    rw [List.foldl_append]
    simp only [List.foldl_cons, List.foldl_nil]
    have hv : L.reverse.foldl (fun acc x => 10 * acc + x) 0 = digitsVal L.reverse := rfl
    rw [hv, ih, Nat.ofDigits_cons]
    ring

theorem digitsVal_decRepr (n : ℕ) : digitsVal (decRepr n) = n := by
  rw [decRepr_eq]
  by_cases h : n = 0
  · simp [h, digitsVal]
  · simp only [h, if_false]
    rw [digitsVal_reverse, Nat.ofDigits_digits]

theorem foldl_replicate_zero (k : ℕ) :
    (List.replicate k 0).foldl (fun a d => 10 * a + d) 0 = 0 := by
  induction k with
  | zero => rfl
  | succ k ih => simpa [List.replicate_succ] using ih

theorem digitsVal_zeroPad (d : ℕ) (l : List ℕ) : digitsVal (zeroPad d l) = digitsVal l := by
  unfold zeroPad digitsVal
  rw [List.foldl_append, foldl_replicate_zero]

theorem zeroPad_length {d : ℕ} {l : List ℕ} (h : l.length ≤ d) :
    (zeroPad d l).length = d := by
  unfold zeroPad
  simp only [List.length_append, List.length_replicate]
  omega

theorem frameStem_digits_lt (d i : ℕ) : ∀ x ∈ frameStem d i, x < 10 := by
  intro x hx
  unfold frameStem zeroPad at hx
  rcases List.mem_append.mp hx with hx | hx
  · rw [List.eq_of_mem_replicate hx]; omega
  · exact decRepr_digits_lt i x hx

theorem frameStem_length {d i : ℕ} (h : numDigits i ≤ d) :
    (frameStem d i).length = d :=
  zeroPad_length h

theorem frameStem_val (d i : ℕ) : digitsVal (frameStem d i) = i := by
  unfold frameStem
  rw [digitsVal_zeroPad, digitsVal_decRepr]

theorem lex_iff_digitsVal_lt (a : List ℕ) : ∀ b : List ℕ, a.length = b.length →
    (∀ d ∈ a, d < 10) → (∀ d ∈ b, d < 10) →
    (List.Lex (· < ·) a b ↔ digitsVal a < digitsVal b) := by
  induction a with
  | nil =>
    intro b hlen _ _
    have hb : b = [] := by cases b <;> simp_all
    subst hb
    constructor
    · intro h; cases h
    · intro h; simp [digitsVal] at h
  | cons x a ih =>
    intro b hlen ha hb
    cases b with
    | nil => simp at hlen
    | cons y b =>
      have hlen' : a.length = b.length := by simpa using hlen
      have hxd : x < 10 := ha x (.head a)
      have hyd : y < 10 := hb y (.head b)
      have hav : digitsVal a < 10 ^ a.length :=
        digitsVal_lt a fun d hd => ha d (.tail x hd)
      have hbv : digitsVal b < 10 ^ b.length :=
        digitsVal_lt b fun d hd => hb d (.tail y hd)
      rw [← hlen'] at hbv
      have hiha := ih b hlen' (fun d hd => ha d (.tail x hd)) fun d hd => hb d (.tail y hd)
      rw [digitsVal_cons, digitsVal_cons, ← hlen']
      constructor
      · intro h
        cases h with
        | cons h' =>
          have hv := hiha.mp h'
          omega
        | rel h' =>
          calc x * 10 ^ a.length + digitsVal a
              < x * 10 ^ a.length + 10 ^ a.length := by omega
            _ = (x + 1) * 10 ^ a.length := by ring
            _ ≤ y * 10 ^ a.length := Nat.mul_le_mul_right _ (by omega)
            _ ≤ y * 10 ^ a.length + digitsVal b := Nat.le_add_right _ _
      · intro h
        rcases Nat.lt_trichotomy x y with hxy | rfl | hxy
        · exact List.Lex.rel hxy
        · exact List.Lex.cons (hiha.mpr (by omega))
        · exfalso
          have hcontra : y * 10 ^ a.length + digitsVal b
              < x * 10 ^ a.length + digitsVal a := by
            calc y * 10 ^ a.length + digitsVal b
                < y * 10 ^ a.length + 10 ^ a.length := by omega
              _ = (y + 1) * 10 ^ a.length := by ring
              _ ≤ x * 10 ^ a.length := Nat.mul_le_mul_right _ (by omega)
              _ ≤ x * 10 ^ a.length + digitsVal a := Nat.le_add_right _ _
          exact Nat.lt_asymm hcontra h

theorem frameStem_lex_iff {t d i j : ℕ} (hd : d = numDigits t)
    (hi : i ≤ t) (hj : j ≤ t) :
    List.Lex (· < ·) (frameStem d i) (frameStem d j) ↔ i < j := by
  have hli : (frameStem d i).length = d := frameStem_length (hd ▸ numDigits_mono hi)
  have hlj : (frameStem d j).length = d := frameStem_length (hd ▸ numDigits_mono hj)
  rw [lex_iff_digitsVal_lt _ _ (by rw [hli, hlj]) (frameStem_digits_lt d i)
    (frameStem_digits_lt d j), frameStem_val, frameStem_val]

/-! ## Additional helper lemmas for the claims -/

theorem paddleLineDetections_eq_nil {l : Option PaddleLine}
    (h : l = none ∨ ∃ cells, l = some cells ∧ cells.length < 2) :
    paddleLineDetections l = [] := by
  rcases h with rfl | ⟨cells, rfl, hlen⟩
  · rfl
  · simp only [paddleLineDetections]
    rw [dif_neg (by omega)]

theorem foldr_lineDetections_eq_nil : ∀ lines : List (Option PaddleLine),
    (∀ l ∈ lines, l = none ∨ ∃ cells, l = some cells ∧ cells.length < 2) →
    lines.foldr (fun l acc => paddleLineDetections l ++ acc) [] = []
  | [], _ => rfl
  | l :: ls, h => by
    rw [List.foldr_cons, paddleLineDetections_eq_nil (h l (.head ls)),
      foldr_lineDetections_eq_nil ls fun m hm => h m (.tail _ hm)]
    rfl

/-- A Paddle result holding one well-formed detection line whose cell 1
is `(t, c)`. -/
def paddleHit (t : String) (c : ℚ) : PaddleResult :=
  some [[some [("", 0), (t, c)]]]

/-- Backend that throws on frame `1.jpg` and recognizes `"A"` with
confidence 0.9 on every other frame. -/
def failOnSecondBackend : String → Except Unit PaddleResult :=
  fun f => if f = "1.jpg" then .error () else .ok (paddleHit "A" (mkRat 9 10))

/-! ## Claim theorems -/

/-- C4: a detection's text is admitted by either OCR backend's filter iff
its confidence strictly exceeds the `0.8` threshold: membership in the
per-frame word list is equivalent to strict exceedance; a confidence
exactly at the threshold is excluded, and `threshold + ε` is included for
every `ε > 0`, on both the EasyOCR and the PaddleOCR path. -/
theorem claim_C4_threshold_strict (ds : List EasyDetection) (t : String) (c : ℚ)
    (box : List (ℚ × ℚ)) (cell : PaddleCell) :
    (t ∈ easyFrameWords ds ↔ ∃ d ∈ ds, d.text = t ∧ confidenceThreshold < d.confidence) ∧
    (paddleFrameWords (some [[some [cell, (t, c)]]]) =
      .ok (if confidenceThreshold < c then [t] else [])) ∧
    easyFrameWords [⟨box, t, confidenceThreshold⟩] = [] ∧
    (∀ ε : ℚ, 0 < ε → easyFrameWords [⟨box, t, confidenceThreshold + ε⟩] = [t]) ∧
    (∀ ε : ℚ, 0 < ε →
      paddleFrameWords (some [[some [cell, (t, confidenceThreshold + ε)]]]) = .ok [t]) := by
  refine ⟨?_, ?_, ?_, ?_, ?_⟩
  · simp only [easyFrameWords, List.mem_map, List.mem_filter, decide_eq_true_eq]
    constructor
    · rintro ⟨d, ⟨hmem, hconf⟩, rfl⟩
      exact ⟨d, hmem, rfl, hconf⟩
    · rintro ⟨d, hmem, rfl, hconf⟩
      exact ⟨d, ⟨hmem, hconf⟩, rfl⟩
  · by_cases hc : confidenceThreshold < c <;>
      simp [paddleFrameWords, paddleFrameDetections, paddleLineDetections, Except.map, hc]
  · simp [easyFrameWords]
  · intro ε hε
    simp [easyFrameWords, lt_add_iff_pos_right, hε]
  · intro ε hε
    simp [paddleFrameWords, paddleFrameDetections, paddleLineDetections, Except.map,
      lt_add_iff_pos_right, hε]

/-- C4 witness: with `ε = 1/10` the detection is admitted, and at exactly
the threshold it is rejected. -/
theorem claim_C4_threshold_strict_witness :
    easyFrameWords [⟨[], "a", confidenceThreshold + mkRat 1 10⟩] = ["a"] ∧
    easyFrameWords [⟨[], "a", confidenceThreshold⟩] = [] :=
  ⟨(claim_C4_threshold_strict [] "a" 0 [] ("", 0)).2.2.2.1 (mkRat 1 10) (by decide),
   (claim_C4_threshold_strict [] "a" 0 [] ("", 0)).2.2.1⟩

/-- C5: the serialized result file lists exactly the admitted strings,
each exactly once (deduplication is exact string equality, hence
case-sensitive), each line newline-terminated, and the lines strictly
ascending in codepoint-lexicographic order; in particular `"Twitter"` and
`"twitter"` both survive, in that order. -/
theorem claim_C5_result_file_sorted_unique (ws : List String) :
    (∀ s, s ∈ sortedUnique ws ↔ s ∈ ws) ∧
    (∀ s ∈ ws, (sortedUnique ws).count s = 1) ∧
    (sortedUnique ws).Pairwise strLt ∧
    resultFileContent ws = String.join ((sortedUnique ws).map fun w => w ++ "\n") ∧
    sortedUnique ["twitter", "Twitter"] = ["Twitter", "twitter"] := by
  refine ⟨fun s => mem_sortedUnique, ?_, sortedUnique_sorted_strict ws, rfl, by decide⟩
  intro s hs
  exact List.count_eq_one_of_mem (sortedUnique_nodup ws) (mem_sortedUnique.mpr hs)

/-- C5 witness: concrete admitted list with a duplicate. -/
theorem claim_C5_result_file_sorted_unique_witness :
    ("b" ∈ sortedUnique ["b", "a", "b"] ↔ "b" ∈ ["b", "a", "b"]) ∧
    (sortedUnique ["b", "a", "b"]).count "b" = 1 :=
  ⟨(claim_C5_result_file_sorted_unique ["b", "a", "b"]).1 "b",
   (claim_C5_result_file_sorted_unique ["b", "a", "b"]).2.1 "b" (by decide)⟩

/-- C6: a successful `get_frame_files` returns a permutation of the
directory listing sorted ascending by the numeric value parsed from each
file's stem; that order differs from lexicographic string order, e.g.
`"9.jpg"` is listed before `"10.jpg"` even though `"10.jpg"` precedes
`"9.jpg"` as a string. -/
theorem claim_C6_numeric_order (names fs : List String)
    (h : getFrameFiles names = .ok fs) :
    fs.Perm names ∧ fs.Sorted frameLe ∧
    getFrameFiles ["10.jpg", "9.jpg"] = .ok ["9.jpg", "10.jpg"] ∧
    strLt "10.jpg" "9.jpg" :=
  ⟨getFrameFiles_perm h, getFrameFiles_sorted h, by decide, by decide⟩

/-- C6 witness: a two-frame directory with differing zero-padding
widths. -/
theorem claim_C6_numeric_order_witness :
    (["2.jpg", "10.jpg"] : List String).Perm ["2.jpg", "10.jpg"] ∧
    (["2.jpg", "10.jpg"] : List String).Sorted frameLe :=
  ⟨(claim_C6_numeric_order ["2.jpg", "10.jpg"] ["2.jpg", "10.jpg"] (by decide)).1,
   (claim_C6_numeric_order ["2.jpg", "10.jpg"] ["2.jpg", "10.jpg"] (by decide)).2.1⟩

/-- C10: on the PaddleOCR path, a `None` backend result is treated as
zero detections, and detection lines that are `None` or shorter than two
elements are skipped by the guards: nothing is contributed and no
exception arises from these guarded accesses. -/
theorem claim_C10_paddle_guards (lines : List (Option PaddleLine))
    (h : ∀ l ∈ lines, l = none ∨ ∃ cells, l = some cells ∧ cells.length < 2) :
    paddleFrameWords none = .ok [] ∧
    paddleFrameWords (some [lines]) = .ok [] := by
  refine ⟨rfl, ?_⟩
  simp [paddleFrameWords, paddleFrameDetections, Except.map,
    foldr_lineDetections_eq_nil lines h]

/-- C10 witness: a `None` line next to a one-element line. -/
theorem claim_C10_paddle_guards_witness :
    paddleFrameWords none = .ok [] ∧
    paddleFrameWords (some [[none, some [("x", 1)]]]) = .ok [] :=
  claim_C10_paddle_guards [none, some [("x", 1)]] (by
    intro l hl
    rcases List.mem_cons.mp hl with rfl | hl
    · exact Or.inl rfl
    · rcases List.mem_cons.mp hl with rfl | hl
      · exact Or.inr ⟨[("x", 1)], rfl, by norm_num⟩
      · cases hl)

/-- Every `process.py` Paddle run either fails leaving the prior file, or
succeeds with the single full write. -/
theorem procRunPaddle_eq (pb : String → Except Unit PaddleResult)
    (frames : List String) (prior : Option String) :
    procRunPaddle pb frames prior = (false, prior) ∨
    ∃ ws, procRunPaddle pb frames prior = (true, some (resultFileContent ws)) := by
  rcases hg : getFrameFiles frames with e | fs
  · exact Or.inl (by simp [procRunPaddle, hg])
  · rcases hc : collectWordsPaddle pb fs with e | ws
    · exact Or.inl (by simp [procRunPaddle, hg, hc])
    · exact Or.inr ⟨ws, by simp [procRunPaddle, hg, hc]⟩

/-- Every `main.py` Paddle run either fails leaving the truncated empty
file, or succeeds with the full write. -/
theorem mainRunPaddle_eq (pb : String → Except Unit PaddleResult)
    (frames : List String) (prior : Option String) :
    mainRunPaddle pb frames prior = (false, some "") ∨
    ∃ ws, mainRunPaddle pb frames prior = (true, some (resultFileContent ws)) := by
  rcases hg : getFrameFiles frames with e | fs
  · exact Or.inl (by simp [mainRunPaddle, hg])
  · rcases hc : collectWordsPaddle pb fs with e | ws
    · exact Or.inl (by simp [mainRunPaddle, hg, hc])
    · exact Or.inr ⟨ws, by simp [mainRunPaddle, hg, hc]⟩

/-- C1 counterexample: with a backend that throws only on `1.jpg` and
recognizes `"A"` at confidence 0.9 on the sibling frames `0.jpg` and
`2.jpg`, the `main.py` Paddle run aborts — it fails (exit 1) and leaves
`result.txt` truncated empty, so the siblings' admitted detection `"A"`
appears in no final ResultSet, contrary to the claim. -/
theorem claim_C1_counterexample :
    mainRunPaddle failOnSecondBackend ["0.jpg", "1.jpg", "2.jpg"] (some "old\n")
      = (false, some "") ∧
    failOnSecondBackend "0.jpg" = .ok (paddleHit "A" (mkRat 9 10)) ∧
    paddleFrameWords (paddleHit "A" (mkRat 9 10)) = .ok ["A"] ∧
    resultFileContent ["A"] ≠ "" :=
  ⟨by decide, rfl, by decide, by decide⟩

/-- C1 amended: an OCR failure on any single frame aborts processing of
the entire frame set on both cited paths — the unhandled exception
reaches the function-level handler, which logs and exits with code 1.
The `main.py` Paddle run reports failure with `result.txt` left as the
empty file it truncated at the start; the `process.py` EasyOCR run
reports failure with the result file left in its prior state. No
ResultSet containing the sibling frames' detections is written. -/
theorem claim_C1_amended (frames : List String) (f : String) (prior : Option String)
    (pb : String → Except Unit PaddleResult)
    (eb : String → Except Unit (List EasyDetection))
    (hf : f ∈ frames) (hpb : pb f = .error ()) (heb : eb f = .error ()) :
    mainRunPaddle pb frames prior = (false, some "") ∧
    procRunEasy eb frames prior = (false, prior) := by
  have hnil : frames ≠ [] := fun hn => by subst hn; cases hf
  have hget := getFrameFiles_of_ne_nil hnil
  have hmem : f ∈ List.insertionSort frameLe frames :=
    (List.perm_insertionSort frameLe frames).mem_iff.mpr hf
  constructor
  · simp only [mainRunPaddle, hget, collectWordsPaddle_error_of_mem hmem hpb]
  · simp only [procRunEasy, hget, collectWordsEasy_error_of_mem hmem heb]

/-- C1 amended witness: failure on the second of two frames. -/
theorem claim_C1_amended_witness :
    mainRunPaddle failOnSecondBackend ["0.jpg", "1.jpg"] (some "p") = (false, some "") ∧
    procRunEasy (fun _ => .error ()) ["0.jpg", "1.jpg"] (some "p") = (false, some "p") :=
  claim_C1_amended ["0.jpg", "1.jpg"] "1.jpg" (some "p") failOnSecondBackend
    (fun _ => .error ()) (by decide) rfl rfl

/-- C2 counterexample: zero extracted frames is not a logged no-op
success — `get_frame_files` exits with code 1. The `main.py` run fails
with `result.txt` truncated to empty (the prior content is destroyed,
not preserved as a valid empty result of this run), and the `process.py`
run fails without writing anything, so a previously absent result file
stays absent rather than being written empty. -/
theorem claim_C2_counterexample :
    getFrameFiles [] = .error () ∧
    mainRunPaddle (fun _ => .ok none) [] (some "old\n") = (false, some "") ∧
    procRunPaddle (fun _ => .ok none) [] none = (false, none) :=
  ⟨rfl, by decide, by decide⟩

/-- C2 amended: an empty frame set is treated as an error, not a no-op
success: for every backend and prior result-file state the run fails,
modelling `sys.exit(1)`; `main.py` leaves `result.txt` as the empty file
it truncated before listing frames, while `process.py` leaves the result
file untouched — absent if it was absent. -/
theorem claim_C2_amended (pb : String → Except Unit PaddleResult)
    (eb : String → Except Unit (List EasyDetection)) (prior : Option String) :
    mainRunPaddle pb [] prior = (false, some "") ∧
    procRunPaddle pb [] prior = (false, prior) ∧
    procRunEasy eb [] prior = (false, prior) :=
  ⟨rfl, rfl, rfl⟩

/-- C3 counterexample: `main.py` truncates `result.txt` at the start of
aggregation, so when OCR fails on the only frame, the prior valid result
`"old\n"` has already been replaced by a newly truncated empty file —
the post-failure file is neither absent nor a prior valid result. -/
theorem claim_C3_counterexample :
    mainRunPaddle (fun _ => .error ()) ["0.jpg"] (some "old\n") = (false, some "") ∧
    (some "" : Option String) ≠ none ∧ ("" : String) ≠ "old\n" :=
  ⟨by decide, by decide, by decide⟩

/-- C3 amended: `process.py`'s aggregation behaves as claimed — every
failure leaves the result file in its prior state and a success performs
the single full-content write — whereas `main.py` violates the claim:
its failure path always ends with `result.txt` as the empty file it
truncated before processing, destroying any prior result. -/
theorem claim_C3_amended (pb : String → Except Unit PaddleResult)
    (frames : List String) (prior : Option String) :
    ((procRunPaddle pb frames prior).1 = false →
      (procRunPaddle pb frames prior).2 = prior) ∧
    ((procRunPaddle pb frames prior).1 = true →
      ∃ ws, (procRunPaddle pb frames prior).2 = some (resultFileContent ws)) ∧
    ((mainRunPaddle pb frames prior).1 = false →
      (mainRunPaddle pb frames prior).2 = some "") := by
  refine ⟨?_, ?_, ?_⟩
  · intro hfail
    rcases procRunPaddle_eq pb frames prior with h | ⟨ws, h⟩
    · rw [h]
    · rw [h] at hfail; simp at hfail
  · intro htrue
    rcases procRunPaddle_eq pb frames prior with h | ⟨ws, h⟩
    · rw [h] at htrue; simp at htrue
    · exact ⟨ws, by rw [h]⟩
  · intro hfail
    rcases mainRunPaddle_eq pb frames prior with h | ⟨ws, h⟩
    · rw [h]
    · rw [h] at hfail; simp at hfail

/-- C3 amended witness: a failing one-frame run. -/
theorem claim_C3_amended_witness :
    (procRunPaddle (fun _ => .error ()) ["0.jpg"] (some "x")).2 = some "x" ∧
    (mainRunPaddle (fun _ => .error ()) ["0.jpg"] (some "x")).2 = some "" :=
  ⟨(claim_C3_amended (fun _ => .error ()) ["0.jpg"] (some "x")).1 (by decide),
   (claim_C3_amended (fun _ => .error ()) ["0.jpg"] (some "x")).2.2 (by decide)⟩

/-- C7: for probed duration `D ≥ 0` and interval `I > 0`, extraction
computes `total_frames = ⌊D / I⌋` (Python `int` truncation of the
nonnegative quotient) and padding width `num_digits` as the length of the
decimal representation of `total_frames`, and — per the decoder contract
for the `%{num_digits}d.jpg` pattern — every frame index up to
`total_frames` is rendered zero-padded to exactly that width, parses back
to itself, and the rendered stems order lexicographically exactly as the
indices order numerically. -/
theorem claim_C7_frame_naming (D I : ℚ) (hI : 0 < I) (hD : 0 ≤ D) :
    totalFrames D I = ⌊D / I⌋ ∧
    (∀ i j : ℕ, i ≤ (totalFrames D I).toNat → j ≤ (totalFrames D I).toNat →
      (frameStem (numDigits (totalFrames D I).toNat) i).length
          = numDigits (totalFrames D I).toNat ∧
      digitsVal (frameStem (numDigits (totalFrames D I).toNat) i) = i ∧
      (List.Lex (· < ·) (frameStem (numDigits (totalFrames D I).toNat) i)
          (frameStem (numDigits (totalFrames D I).toNat) j) ↔ i < j)) := by
  constructor
  · unfold totalFrames pyInt
    rw [if_pos (div_nonneg hD hI.le)]
  · intro i j hi hj
    exact ⟨frameStem_length (numDigits_mono hi), frameStem_val _ _,
      frameStem_lex_iff rfl hi hj⟩

/-- C7 witness: the spec's 27-second video at 5-second intervals yields
5 frames with 1-digit padding. -/
theorem claim_C7_frame_naming_witness :
    totalFrames 27 5 = 5 ∧
    (List.Lex (· < ·) (frameStem (numDigits (totalFrames 27 5).toNat) 3)
        (frameStem (numDigits (totalFrames 27 5).toNat) 5) ↔ 3 < 5) := by
  have h := claim_C7_frame_naming 27 5 (by decide) (by decide)
  have h5 : totalFrames 27 5 = 5 := by rw [h.1]; norm_num
  refine ⟨h5, (h.2 3 5 ?_ ?_).2.2⟩ <;> rw [h5] <;> decide

/-- C8 counterexample: `main.py`'s `extract_frames` prepares the frame
directory with `mkdir(exist_ok=True)` and never clears it, so a
pre-existing directory keeps its stale contents — refuting "pre-existing
contents are cleared" for that file. -/
theorem claim_C8_counterexample :
    mainPrepareFramesDir (some ["stale.jpg"]) = ["stale.jpg"] ∧
    ["stale.jpg"] ≠ ([] : List String) :=
  ⟨rfl, by decide⟩

/-- C8 amended: `process.py`'s `extract_frames` recreates the frame
directory fresh — an existing directory is removed with `shutil.rmtree`
before `mkdir`, leaving it empty — while `main.py`'s variant only creates
the directory when missing and keeps any pre-existing contents in
place. -/
theorem claim_C8_amended (existing : Option (List String)) (files : List String) :
    procPrepareFramesDir existing = [] ∧
    mainPrepareFramesDir (some files) = files ∧
    mainPrepareFramesDir none = [] :=
  ⟨rfl, rfl, rfl⟩

/-- C9 counterexample: in `main.py` the work directory and the result
file are the fixed CWD-relative names `frames` and `result.txt`, not
names derived from the video's stem, so the distinct videos `a.mp4` and
`b.mp4` are assigned the same work directory and the same result file —
they collide, contrary to the claim. -/
theorem claim_C9_counterexample :
    mainFramesDirName "a.mp4" = mainFramesDirName "b.mp4" ∧
    mainFramesDirName "a.mp4" = "frames" ∧
    mainResultFileName "a.mp4" = mainResultFileName "b.mp4" ∧
    ("a.mp4" : String) ≠ "b.mp4" :=
  ⟨rfl, rfl, rfl, by decide⟩

/-- C9 amended: neither variant derives its scratch names from the video
stem, and no `ocr_output/frames_<name>` layout is produced: `main.py`
uses the fixed relative paths `frames` and `result.txt` for every video,
so two videos processed from the same working directory collide, while
`process.py` places frames at `<output_dir>/frames` for a caller-supplied
output directory, so isolation holds exactly when callers pass distinct
output directories. -/
theorem claim_C9_amended (v w outA outB : String) (h : outA ≠ outB) :
    mainFramesDirName v = mainFramesDirName w ∧
    mainResultFileName v = mainResultFileName w ∧
    procFramesDirName outA ≠ procFramesDirName outB := by
  refine ⟨rfl, rfl, fun hcontra => h ?_⟩
  have hdata := congrArg String.data hcontra
  simp only [procFramesDirName] at hdata
  exact String.ext (List.append_cancel_right hdata)

/-- C9 amended witness: two distinct output directories. -/
theorem claim_C9_amended_witness :
    procFramesDirName "x" ≠ procFramesDirName "y" :=
  (claim_C9_amended "a.mp4" "b.mp4" "x" "y" (by decide)).2.2

end OCRCompare
